import Mathlib

/-!
Verification of the workday-computation and round-robin distribution core of
the `reisekosten` travel-expense generator.

The definitions below are a shallow embedding of the Go sources:

* `isWorkday`, `daysInMonth`, the round-robin main loop and the cost
  aggregation are transcribed from `main.go` (the version with per-customer
  calendars, a rotating cursor and `getCustomerCalendars`).
* `distributeWorkdays` is transcribed from the older `main.go` variant that
  collects all workdays first and assigns workday `i` to customer `i % n`.
* `buildDocumentHeader2`, `formatAmount`, `rightAlign` are transcribed from
  `document.go`.
* The external `rickar/cal` calendar library is modelled by `calIsWorkday`:
  a business calendar answers "is this date a working day", i.e. the date is
  neither a Saturday/Sunday nor in the calendar's holiday set.

Machine integers are modelled by `Nat`/`Int` (the quantities involved — day
numbers, counts, distances — are small and non-negative in every reachable
state), and currency amounts by `ℚ`, since the program only multiplies and
adds decimal constants.
-/

namespace Reisekosten

/-- Calendar date: year, month (1–12), day of month. -/
structure Date where
  year : Nat
  month : Nat
  day : Nat
deriving DecidableEq, Repr

/-- Lookup table of Sakamoto's day-of-week algorithm. -/
def sakamotoTable : List Nat := [0, 3, 2, 5, 0, 3, 5, 1, 4, 6, 2, 4]

/-- Day of the week of a Gregorian date, `0 = Sunday`, …, `6 = Saturday`
(Sakamoto's method).  Models the weekday computation of Go's `time`
package used by the `rickar/cal` library. -/
def dayOfWeek (y m d : Nat) : Nat :=
  let y2 := if m < 3 then y - 1 else y
  (y2 + y2 / 4 - y2 / 100 + y2 / 400 + sakamotoTable.getD (m - 1) 0 + d) % 7

/-- A date is on a weekend iff its weekday is Saturday or Sunday. -/
def isWeekend (d : Date) : Bool :=
  dayOfWeek d.year d.month d.day == 0 || dayOfWeek d.year d.month d.day == 6

/-- Model of `cal.BusinessCalendar`: the default workweek (Mon–Fri) plus a
set of holidays added with `AddHoliday`. -/
structure BusinessCalendar where
  isHoliday : Date → Bool

/-- Model of `cal.BusinessCalendar.IsWorkday`: a date is a working day iff
it is neither a weekend day nor one of the calendar's holidays. -/
def calIsWorkday (c : BusinessCalendar) (d : Date) : Bool :=
  !isWeekend d && !c.isHoliday d

/-- Transcription of `isWorkday` from the source: a valid workday for
expense reporting excludes weekends, holidays, and the special December
dates (24th, 27th–31st). -/
def isWorkday (c : BusinessCalendar) (date : Date) : Bool :=
  if !calIsWorkday c date then false
  else if date.month == 12 && (date.day == 24 || (27 ≤ date.day && date.day ≤ 31)) then
    false
  else true

/-- Modelled from the spec: the Workday Filter `isBusinessDay(calendar, date,
holidayPeriodExclusion)` of §4.2 — the variant of `isWorkday` that takes the
configurable `christmasWeekOff` policy flag.  Its implementation is not under
`src/` (only its test `TestIsWorkday` in `main_test.go` is); per the spec it
returns false when the calendar's own workday test fails, returns false when
the flag is set and the date is December 24 or 27–31, and returns true
otherwise. -/
def isBusinessDay (c : BusinessCalendar) (date : Date) (holidayPeriodExclusion : Bool) : Bool :=
  if !calIsWorkday c date then false
  else if holidayPeriodExclusion && date.month == 12 &&
      (date.day == 24 || (27 ≤ date.day && date.day ≤ 31)) then
    false
  else true

/-- Cumulative day counts before each month in a non-leap year, as in Go's
`time` package (`daysBefore`); entry `m` is the number of days in the year
before month `m + 1`. -/
def daysBefore : List Nat :=
  [0, 31, 59, 90, 120, 151, 181, 212, 243, 273, 304, 334, 365]

/-- Go's `isLeap`: leap years are those divisible by 4, except century years
unless divisible by 400. -/
def isLeap (y : Nat) : Bool :=
  y % 4 == 0 && (y % 100 != 0 || y % 400 == 0)

/-- Transcription of `daysInMonth`: the Go source computes
`time.Date(year, month+1, 0, …).Day()`, i.e. "day 0 of the next month",
which Go's date normalization resolves to the last day of `month` via its
`daysBefore` table and `isLeap` test. -/
def daysInMonth (year month : Nat) : Nat :=
  if month == 2 && isLeap year then 29
  else daysBefore.getD month 0 - daysBefore.getD (month - 1) 0

/-- Zero-pad a number to (at least) two digits: Go's `%02d`. -/
def pad2 (n : Nat) : String :=
  if n < 10 then ("0" ++ toString n) else toString n

/-- Transcription of `formatDate`: `fmt.Sprintf("%02d.%02d.%d", day, month,
year)`, the German `DD.MM.YYYY` format. -/
def formatDate (year month day : Nat) : String :=
  pad2 day ++ ("." : String) ++ pad2 month ++ ("." : String) ++ toString year

/-- The Gregorian leap-year rule as worded in the spec: divisible by 4 and
not a century year unless divisible by 400. -/
def gregorianLeap (y : Nat) : Prop :=
  y % 4 = 0 ∧ (y % 100 ≠ 0 ∨ y % 400 = 0)

instance (y : Nat) : Decidable (gregorianLeap y) := by
  unfold gregorianLeap; infer_instance

/-- The known Gregorian month lengths (spec side): 31/30 days, and for
February 28 or 29 according to the leap-year rule. -/
def gregorianDaysInMonth (y m : Nat) : Nat :=
  if m = 2 then (if gregorianLeap y then 29 else 28)
  else if m = 4 ∨ m = 6 ∨ m = 9 ∨ m = 11 then 30
  else 31

theorem isLeap_iff (y : Nat) : isLeap y = true ↔ gregorianLeap y := by
  simp [isLeap, gregorianLeap, Nat.beq_eq_true_eq, Bool.and_eq_true, Bool.or_eq_true,
    bne_iff_ne]

/-- Transcription of the `Customer` struct (`From`/`To` are rendered as
`origin`/`destination` since `from` is a reserved word). -/
structure Customer where
  id : String
  name : String
  origin : String
  destination : String
  reason : String
  distance : Int
  province : String

/-- The holiday slices exported by the external `rickar/cal/v2/de` package,
one per German state; the library data itself is opaque to this program. -/
structure HolidayLib where
  holidaysBW : Date → Bool
  holidaysBY : Date → Bool
  holidaysBE : Date → Bool
  holidaysBB : Date → Bool
  holidaysHB : Date → Bool
  holidaysHH : Date → Bool
  holidaysHE : Date → Bool
  holidaysMV : Date → Bool
  holidaysNI : Date → Bool
  holidaysNW : Date → Bool
  holidaysRP : Date → Bool
  holidaysSL : Date → Bool
  holidaysSN : Date → Bool
  holidaysST : Date → Bool
  holidaysSH : Date → Bool
  holidaysTH : Date → Bool

/-- Transcription of the `provinceHolidays` map: German state abbreviations
to their holiday slices (a Go map used only via key lookup, rendered as an
association list). -/
def provinceHolidays (L : HolidayLib) : List (String × (Date → Bool)) :=
  [("BW", L.holidaysBW), ("BY", L.holidaysBY), ("BE", L.holidaysBE), ("BB", L.holidaysBB),
   ("HB", L.holidaysHB), ("HH", L.holidaysHH), ("HE", L.holidaysHE), ("MV", L.holidaysMV),
   ("NI", L.holidaysNI), ("NW", L.holidaysNW), ("RP", L.holidaysRP), ("SL", L.holidaysSL),
   ("SN", L.holidaysSN), ("ST", L.holidaysST), ("SH", L.holidaysSH), ("TH", L.holidaysTH)]

/-- Transcription of `newBusinessCalendar`: build a business calendar seeded
with the given province's holidays, silently defaulting to Baden-Württemberg
when the province code is not in the table. -/
def newBusinessCalendar (L : HolidayLib) (province : String) : BusinessCalendar :=
  match (provinceHolidays L).lookup province with
  | some hs => ⟨hs⟩
  | none => ⟨L.holidaysBW⟩

/-- Transcription of `getCustomerCalendars`: one calendar per customer,
derived from that customer's province. -/
def getCustomerCalendars (L : HolidayLib) (customers : List Customer) :
    List BusinessCalendar :=
  customers.map (fun c => newBusinessCalendar L c.province)

/-- Placeholder calendar used as the default of `List.getD`; never reached
when the calendar list is non-empty, because the cursor stays below the
list's length. -/
def defaultCalendar : BusinessCalendar := ⟨fun _ => false⟩

/-- State of the main distribution loop, as in the source: the per-customer
date-string lists (a Go map from customer index, rendered as a list with one
entry per customer), the rotating cursor, the most recently assigned date
string, and the running total. -/
structure GoState where
  customerDays : List (List String)
  customerIdx : Nat
  lastDateString : String
  totalWorkdays : Nat
deriving Repr, DecidableEq

/-- Transcription of the body of the day loop in `main` (per-customer
calendar version): test the day against the cursor customer's calendar; on
success append the formatted date to that customer's list, remember it as
the last date, count it, and advance the cursor modulo the number of
customers; on failure leave the state unchanged. -/
def mainLoopStep (calendars : List BusinessCalendar) (year month : Nat)
    (st : GoState) (day : Nat) : GoState :=
  if isWorkday (calendars.getD st.customerIdx defaultCalendar) ⟨year, month, day⟩ then
    { customerDays := st.customerDays.set st.customerIdx
        (st.customerDays.getD st.customerIdx [] ++ [formatDate year month day])
      customerIdx := (st.customerIdx + 1) % calendars.length
      lastDateString := formatDate year month day
      totalWorkdays := st.totalWorkdays + 1 }
  else st

/-- Transcription of the day loop in `main`: fold `mainLoopStep` over the
days `1, …, daysInMonth year month` in ascending order, starting from the
empty assignment with the cursor at customer 0. -/
def runMainLoop (calendars : List BusinessCalendar) (year month : Nat) : GoState :=
  (List.range' 1 (daysInMonth year month)).foldl (mainLoopStep calendars year month)
    ⟨List.replicate calendars.length [], 0, ("" : String), 0⟩

/-- State of the abstract round-robin rotation (spec side, §4.3): the
per-customer lists of assigned day numbers, the rotating cursor, and the
accepted days in acceptance order. -/
structure RRState where
  lists : List (List Nat)
  idx : Nat
  accepted : List Nat
deriving Repr, DecidableEq

/-- One step of the rotation described by the spec: the day is tested only
against the cursor customer's acceptance predicate; on success it is
appended to that customer's list and the cursor advances by one (wrapping
modulo `n`); on failure the day is skipped for all customers and the cursor
stays. -/
def rrStep (accept : Nat → Nat → Bool) (n : Nat) (st : RRState) (day : Nat) : RRState :=
  if accept st.idx day then
    ⟨st.lists.set st.idx (st.lists.getD st.idx [] ++ [day]),
     (st.idx + 1) % n, st.accepted ++ [day]⟩
  else st

/-- The rotation of the spec run from the initial state: cursor at the first
customer, all lists empty. -/
def rrRun (accept : Nat → Nat → Bool) (n : Nat) (days : List Nat) : RRState :=
  days.foldl (rrStep accept n) ⟨List.replicate n [], 0, []⟩

/-- Acceptance predicate used by the main loop: day `day` of the target
month qualifies for customer `i` iff it is a workday of that customer's own
calendar. -/
def cursorAccepts (calendars : List BusinessCalendar) (year month : Nat)
    (i day : Nat) : Bool :=
  isWorkday (calendars.getD i defaultCalendar) ⟨year, month, day⟩

/-- Transcription of the loop of the older `distributeWorkdays`, with the
Go runtime's behaviour of `i % numCustomers` made explicit: when
`numCustomers = 0` the loop body's modulo panics (modelled as `none`). -/
def distributeWorkdaysAux (numCustomers : Nat) :
    Nat → List String → List (List String) → Option (List (List String))
  | _, [], result => some result
  | i, d :: rest, result =>
    if numCustomers = 0 then none
    else
      distributeWorkdaysAux numCustomers (i + 1) rest
        (result.set (i % numCustomers)
          (result.getD (i % numCustomers) [] ++ [d]))

/-- Transcription of the older `distributeWorkdays`: assign workday `i` to
customer `i % numCustomers`, returning the per-customer date-string lists
(`none` models the runtime panic on `numCustomers = 0`). -/
def distributeWorkdays (workdays : List String) (numCustomers : Nat) :
    Option (List (List String)) :=
  distributeWorkdaysAux numCustomers 0 workdays (List.replicate numCustomers [])

/-! ## List helper lemmas -/

theorem getD_map_nil {α β : Type} (f : α → β) (l : List (List α)) (i : Nat) :
    (l.map (List.map f)).getD i [] = (l.getD i []).map f := by
  have h := List.getD_map (l := l) (n := i) (f := List.map f) (d := [])
  simpa using h

theorem getD_set_ite {α : Type} (l : List α) (i j : Nat) (a d : α) (h : i < l.length) :
    (l.set i a).getD j d = if i = j then a else l.getD j d := by
  induction l generalizing i j with
  | nil => simp at h
  | cons x xs ih =>
    cases i with
    | zero =>
      cases j with
      | zero => simp [List.set]
      | succ k => simp [List.set]
    | succ n =>
      cases j with
      | zero => simp [List.set]
      | succ k =>
        have hn : n < xs.length := by simpa using h
        simpa [List.set, Nat.succ_inj] using ih n k hn

theorem sum_map_length_set {α : Type} (l : List (List α)) (i : Nat) (e : α)
    (h : i < l.length) :
    ((l.set i (l.getD i [] ++ [e])).map List.length).sum
      = (l.map List.length).sum + 1 := by
  induction l generalizing i with
  | nil => simp at h
  | cons x xs ih =>
    cases i with
    | zero => simp [List.set]; omega
    | succ n =>
      have hn : n < xs.length := by simpa using h
      simp only [List.set, List.getD_cons_succ, List.map_cons, List.sum_cons]
      rw [ih n hn]; omega

theorem mod_two_region {n a : Nat} (h2 : a < 2 * n) :
    a % n = if a < n then a else a - n := by
  by_cases h : a < n
  · simp [h, Nat.mod_eq_of_lt h]
  · have hle : n ≤ a := Nat.le_of_not_lt h
    rw [if_neg h, Nat.mod_eq_sub_mod hle, Nat.mod_eq_of_lt (by omega)]

/-! ## The replay of an acceptance sequence

During the rotation, each accepted day goes to the cursor customer and the
cursor then advances by one modulo `n`; consequently the per-customer lists
are fully determined by the sequence of accepted days.  `assignedTo n j i t`
is the sublist of `t` a replay starting at cursor `i` hands to customer `j`. -/

def assignedTo (n j : Nat) : Nat → List Nat → List Nat
  | _, [] => []
  | i, d :: rest => (if i = j then [d] else []) ++ assignedTo n j ((i + 1) % n) rest

theorem assignedTo_sublist (n j : Nat) :
    ∀ (t : List Nat) (i : Nat), (assignedTo n j i t).Sublist t := by
  intro t
  induction t with
  | nil => intro i; simp [assignedTo]
  | cons d rest ih =>
    intro i
    by_cases hij : i = j
    · simpa [assignedTo, hij] using List.Sublist.cons₂ d (ih ((i + 1) % n))
    · simpa [assignedTo, hij] using List.Sublist.cons d (ih ((i + 1) % n))

theorem assignedTo_disjoint (n : Nat) {j k : Nat} (hjk : j ≠ k) :
    ∀ (t : List Nat) (i : Nat), t.Nodup →
      ∀ a, a ∈ assignedTo n j i t → a ∈ assignedTo n k i t → False := by
  intro t
  induction t with
  | nil => intro i _ a ha; simp [assignedTo] at ha
  | cons d rest ih =>
    intro i hnd a haj hak
    have hd : d ∉ rest := (List.nodup_cons.1 hnd).1
    have hrest : rest.Nodup := (List.nodup_cons.1 hnd).2
    rw [assignedTo, List.mem_append] at haj hak
    rcases haj with haj | haj
    · have hij : i = j := by by_contra hne; simp [hne] at haj
      have had : a = d := by simp [hij] at haj; exact haj
      rcases hak with hak | hak
      · have hik : i = k := by by_contra hne; simp [hne] at hak
        exact hjk (hij ▸ hik)
      · exact hd (had ▸ (assignedTo_sublist n k rest ((i + 1) % n)).subset hak)
    · rcases hak with hak | hak
      · have hik : i = k := by by_contra hne; simp [hne] at hak
        have had : a = d := by simp [hik] at hak; exact hak
        exact hd (had ▸ (assignedTo_sublist n j rest ((i + 1) % n)).subset haj)
      · exact ih ((i + 1) % n) hrest a haj hak

/-- Number of acceptance steps until a cursor at `i` reaches customer `j`. -/
def cursorGap (n j i : Nat) : Nat := (j + n - i) % n

theorem cursorGap_eq (n : Nat) (hn : 0 < n) {j i : Nat} (hj : j < n) (hi : i < n) :
    cursorGap n j i = if i ≤ j then j - i else j + n - i := by
  unfold cursorGap
  rw [mod_two_region (by omega)]
  by_cases hle : i ≤ j
  · rw [if_neg (by omega), if_pos hle]
    omega
  · rw [if_pos (by omega), if_neg hle]

theorem cursorGap_lt (n : Nat) (hn : 0 < n) (j i : Nat) : cursorGap n j i < n :=
  Nat.mod_lt _ hn

theorem cursorGap_self (n : Nat) (hn : 0 < n) {j : Nat} (hj : j < n) :
    cursorGap n j j = 0 := by
  rw [cursorGap_eq n hn hj hj, if_pos (Nat.le_refl j), Nat.sub_self]

theorem cursorGap_succ_self (n : Nat) (hn : 0 < n) {j : Nat} (hj : j < n) :
    cursorGap n j ((j + 1) % n) = n - 1 := by
  by_cases hlt : j + 1 < n
  · rw [Nat.mod_eq_of_lt hlt, cursorGap_eq n hn hj hlt, if_neg (by omega)]
    omega
  · have hjn : j + 1 = n := by omega
    rw [hjn, Nat.mod_self, cursorGap_eq n hn hj hn, if_pos (Nat.zero_le j)]
    omega

theorem cursorGap_succ_ne (n : Nat) (hn : 0 < n) {j i : Nat} (hj : j < n) (hi : i < n)
    (hij : i ≠ j) : cursorGap n j ((i + 1) % n) = cursorGap n j i - 1 ∧
      1 ≤ cursorGap n j i := by
  by_cases hlt : i + 1 < n
  · rw [Nat.mod_eq_of_lt hlt, cursorGap_eq n hn hj hlt, cursorGap_eq n hn hj hi]
    by_cases hle : i ≤ j
    · have h1 : i + 1 ≤ j := by omega
      rw [if_pos h1, if_pos hle]
      omega
    · rw [if_neg (by omega), if_neg hle]
      omega
  · have hin : i + 1 = n := by omega
    rw [hin, Nat.mod_self, cursorGap_eq n hn hj hn, cursorGap_eq n hn hj hi,
      if_pos (Nat.zero_le j), if_neg (by omega)]
    omega

theorem assignedTo_length (n : Nat) (hn : 0 < n) (j : Nat) (hj : j < n) :
    ∀ (t : List Nat) (i : Nat), i < n →
      (assignedTo n j i t).length = (t.length + (n - 1) - cursorGap n j i) / n := by
  intro t
  induction t with
  | nil =>
    intro i hi
    have hr : cursorGap n j i < n := cursorGap_lt n hn j i
    simp only [assignedTo, List.length_nil]
    rw [Nat.div_eq_of_lt (by omega)]
  | cons d rest ih =>
    intro i hi
    have hi' : (i + 1) % n < n := Nat.mod_lt _ hn
    by_cases hij : i = j
    · -- the cursor customer takes this day
      subst hij
      have h0 : cursorGap n i i = 0 := cursorGap_self n hn hi
      have h1 : cursorGap n i ((i + 1) % n) = n - 1 := cursorGap_succ_self n hn hi
      rw [assignedTo, if_pos rfl, List.singleton_append, List.length_cons,
        ih ((i + 1) % n) hi', h1, h0]
      rw [show rest.length + (n - 1) - (n - 1) = rest.length from by omega,
        show (d :: rest).length + (n - 1) - 0 = rest.length + n from by
          simp [List.length_cons]; omega]
      rw [Nat.add_div_right _ hn]
    · obtain ⟨hstep, hge⟩ := cursorGap_succ_ne n hn hj hi hij
      have hlt2 : cursorGap n j i < n := cursorGap_lt n hn j i
      rw [assignedTo, if_neg hij, List.nil_append, ih ((i + 1) % n) hi', hstep]
      congr 1
      simp only [List.length_cons]
      omega


theorem assignedTo_zero_length (n : Nat) (hn : 0 < n) (j : Nat) (hj : j < n)
    (t : List Nat) :
    (assignedTo n j 0 t).length
      = t.length / n + if j < t.length % n then 1 else 0 := by
  have h := assignedTo_length n hn j hj t 0 hn
  have hg : cursorGap n j 0 = j := by
    rw [cursorGap_eq n hn hj hn, if_pos (Nat.zero_le j)]
    omega
  rw [h, hg]
  have hdm := Nat.div_add_mod t.length n
  set q := t.length / n with hq
  set s := t.length % n with hs
  have hslt : s < n := Nat.mod_lt _ hn
  by_cases hcase : j < s
  · rw [if_pos hcase]
    rw [show t.length + (n - 1) - j = n * (q + 1) + (s - 1 - j) from by
      rw [Nat.mul_add, Nat.mul_one]; omega]
    rw [Nat.mul_add_div hn, Nat.div_eq_of_lt (by omega)]
  · rw [if_neg hcase]
    rw [show t.length + (n - 1) - j = n * q + (s + (n - 1) - j) from by omega]
    rw [Nat.mul_add_div hn, Nat.div_eq_of_lt (by omega)]

/-! ## Replay characterization of the rotation fold -/

theorem rr_foldl_replay (accept : Nat → Nat → Bool) (n : Nat) (hn : 0 < n) :
    ∀ (ds : List Nat) (st : RRState), st.idx < n → st.lists.length = n →
      ∃ t : List Nat,
        (ds.foldl (rrStep accept n) st).accepted = st.accepted ++ t ∧
        t.Sublist ds ∧
        (ds.foldl (rrStep accept n) st).idx = (st.idx + t.length) % n ∧
        (ds.foldl (rrStep accept n) st).lists.length = n ∧
        ∀ j, (ds.foldl (rrStep accept n) st).lists.getD j []
              = st.lists.getD j [] ++ assignedTo n j st.idx t := by
  intro ds
  induction ds with
  | nil =>
    intro st hidx hlen
    refine ⟨[], by simp, List.nil_sublist _, ?_, hlen, fun j => by simp [assignedTo]⟩
    simp [Nat.mod_eq_of_lt hidx]
  | cons d rest ih =>
    intro st hidx hlen
    rw [List.foldl_cons]
    by_cases hacc : accept st.idx d = true
    · have hstep : rrStep accept n st d
          = ⟨st.lists.set st.idx (st.lists.getD st.idx [] ++ [d]),
             (st.idx + 1) % n, st.accepted ++ [d]⟩ := by
        simp [rrStep, hacc]
      obtain ⟨t, h1, h2, h3, h4, h5⟩ := ih (rrStep accept n st d)
        (by rw [hstep]; exact Nat.mod_lt _ hn)
        (by rw [hstep]; simpa using hlen)
      refine ⟨d :: t, ?_, List.Sublist.cons₂ d h2, ?_, h4, ?_⟩
      · rw [h1, hstep]
        simp
      · rw [h3, hstep]
        simp only [List.length_cons]
        rw [Nat.mod_add_mod]
        congr 1
        omega
      · intro j
        rw [h5 j, hstep]
        simp only []
        rw [getD_set_ite _ _ _ _ _ (by omega : st.idx < st.lists.length)]
        by_cases hij : st.idx = j
        · rw [if_pos hij, assignedTo, if_pos hij, hij, List.append_assoc]
        · rw [if_neg hij, assignedTo, if_neg hij]
          simp
    · have hstep : rrStep accept n st d = st := by simp [rrStep, hacc]
      rw [hstep]
      obtain ⟨t, h1, h2, h3, h4, h5⟩ := ih st hidx hlen
      exact ⟨t, h1, List.Sublist.cons d h2, h3, h4, h5⟩

theorem rr_foldl_accepted_uniform (p : Nat → Bool) (n : Nat) (hn : 0 < n) :
    ∀ (ds : List Nat) (st : RRState), st.idx < n →
      (ds.foldl (rrStep (fun _ day => p day) n) st).accepted
        = st.accepted ++ ds.filter p := by
  intro ds
  induction ds with
  | nil =>
    intro st _
    simp
  | cons d rest ih =>
    intro st hidx
    rw [List.foldl_cons, List.filter_cons]
    by_cases hp : p d = true
    · have hstep : rrStep (fun _ day => p day) n st d
          = ⟨st.lists.set st.idx (st.lists.getD st.idx [] ++ [d]),
             (st.idx + 1) % n, st.accepted ++ [d]⟩ := by
        simp [rrStep, hp]
      rw [hstep, ih _ (by simp only []; exact Nat.mod_lt _ hn)]
      simp [hp]
    · have hstep : rrStep (fun _ day => p day) n st d = st := by simp [rrStep, hp]
      rw [hstep, ih st hidx]
      simp [hp]

/-! ## Refinement: the transcription of the main loop against the rotation -/

theorem foldl_main_eq_rr (calendars : List BusinessCalendar) (year month : Nat)
    (ds : List Nat) :
    ∀ (go : GoState) (rr : RRState),
      go.customerDays = rr.lists.map (List.map (formatDate year month)) →
      go.customerIdx = rr.idx →
      go.totalWorkdays = rr.accepted.length →
      go.lastDateString = (rr.accepted.map (formatDate year month)).getLastD ("") →
      ((ds.foldl (mainLoopStep calendars year month) go).customerDays
          = ((ds.foldl (rrStep (cursorAccepts calendars year month) calendars.length) rr).lists).map
              (List.map (formatDate year month))
        ∧ (ds.foldl (mainLoopStep calendars year month) go).customerIdx
          = (ds.foldl (rrStep (cursorAccepts calendars year month) calendars.length) rr).idx
        ∧ (ds.foldl (mainLoopStep calendars year month) go).totalWorkdays
          = (ds.foldl (rrStep (cursorAccepts calendars year month) calendars.length) rr).accepted.length
        ∧ (ds.foldl (mainLoopStep calendars year month) go).lastDateString
          = ((ds.foldl (rrStep (cursorAccepts calendars year month) calendars.length) rr).accepted.map
              (formatDate year month)).getLastD ("")) := by
  induction ds with
  | nil =>
    intro go rr h1 h2 h3 h4
    exact ⟨h1, h2, h3, h4⟩
  | cons d rest ih =>
    intro go rr h1 h2 h3 h4
    rw [List.foldl_cons, List.foldl_cons]
    by_cases hc : cursorAccepts calendars year month rr.idx d = true
    · have hgo : mainLoopStep calendars year month go d
          = { customerDays := go.customerDays.set go.customerIdx
                (go.customerDays.getD go.customerIdx [] ++ [formatDate year month d])
              customerIdx := (go.customerIdx + 1) % calendars.length
              lastDateString := formatDate year month d
              totalWorkdays := go.totalWorkdays + 1 } := by
        have hw : isWorkday (calendars.getD go.customerIdx defaultCalendar)
            ⟨year, month, d⟩ = true := by
          rw [h2]
          exact hc
        unfold mainLoopStep
        rw [if_pos hw]
      have hrr : rrStep (cursorAccepts calendars year month) calendars.length rr d
          = ⟨rr.lists.set rr.idx (rr.lists.getD rr.idx [] ++ [d]),
             (rr.idx + 1) % calendars.length, rr.accepted ++ [d]⟩ := by
        unfold rrStep
        rw [if_pos hc]
      rw [hgo, hrr]
      apply ih
      · show go.customerDays.set go.customerIdx
            (go.customerDays.getD go.customerIdx [] ++ [formatDate year month d])
          = ((rr.lists.set rr.idx (rr.lists.getD rr.idx [] ++ [d])).map
              (List.map (formatDate year month)))
        rw [List.map_set, h1, h2, getD_map_nil]
        simp
      · show (go.customerIdx + 1) % calendars.length = (rr.idx + 1) % calendars.length
        rw [h2]
      · show go.totalWorkdays + 1 = (rr.accepted ++ [d]).length
        rw [h3]
        simp
      · show formatDate year month d
          = ((rr.accepted ++ [d]).map (formatDate year month)).getLastD ("")
        rw [List.map_append]
        simp
    · have hw : isWorkday (calendars.getD go.customerIdx defaultCalendar)
          ⟨year, month, d⟩ = false := by
        rw [h2]
        exact Bool.eq_false_iff.mpr hc
      have hnot : ¬ isWorkday (calendars.getD go.customerIdx defaultCalendar)
          ⟨year, month, d⟩ = true := by
        rw [hw]
        simp
      have hgo : mainLoopStep calendars year month go d = go := by
        unfold mainLoopStep
        rw [if_neg hnot]
      have hrr : rrStep (cursorAccepts calendars year month) calendars.length rr d = rr := by
        unfold rrStep
        rw [if_neg hc]
      rw [hgo, hrr]
      exact ih go rr h1 h2 h3 h4

/-- The main loop of `main` is exactly the round-robin rotation of the spec:
per-customer lists are the rotation's day lists rendered through
`formatDate`, and the final cursor, the total and the last assigned date
string agree with the rotation's. -/
theorem runMainLoop_eq_rrRun (calendars : List BusinessCalendar) (year month : Nat) :
    (runMainLoop calendars year month).customerDays
        = (rrRun (cursorAccepts calendars year month) calendars.length
            (List.range' 1 (daysInMonth year month))).lists.map
            (List.map (formatDate year month))
      ∧ (runMainLoop calendars year month).customerIdx
        = (rrRun (cursorAccepts calendars year month) calendars.length
            (List.range' 1 (daysInMonth year month))).idx
      ∧ (runMainLoop calendars year month).totalWorkdays
        = (rrRun (cursorAccepts calendars year month) calendars.length
            (List.range' 1 (daysInMonth year month))).accepted.length
      ∧ (runMainLoop calendars year month).lastDateString
        = ((rrRun (cursorAccepts calendars year month) calendars.length
            (List.range' 1 (daysInMonth year month))).accepted.map
            (formatDate year month)).getLastD ("") := by
  apply foldl_main_eq_rr
  · simp [List.map_replicate]
  · rfl
  · rfl
  · rfl

/-! ## Structural facts about the rotation result -/

theorem rr_foldl_sum_len (accept : Nat → Nat → Bool) (n : Nat) (hn : 0 < n) :
    ∀ (ds : List Nat) (st : RRState), st.idx < n → st.lists.length = n →
      ((ds.foldl (rrStep accept n) st).lists.map List.length).sum + st.accepted.length
        = (st.lists.map List.length).sum
            + (ds.foldl (rrStep accept n) st).accepted.length := by
  intro ds
  induction ds with
  | nil =>
    intro st _ _
    rfl
  | cons d rest ih =>
    intro st hidx hlen
    rw [List.foldl_cons]
    by_cases hacc : accept st.idx d = true
    · have hstep : rrStep accept n st d
          = ⟨st.lists.set st.idx (st.lists.getD st.idx [] ++ [d]),
             (st.idx + 1) % n, st.accepted ++ [d]⟩ := by
        unfold rrStep
        rw [if_pos hacc]
      have h1 := ih (rrStep accept n st d)
        (by rw [hstep]; exact Nat.mod_lt _ hn)
        (by rw [hstep]; simpa using hlen)
      rw [hstep] at h1
      rw [hstep]
      have h2 := sum_map_length_set st.lists st.idx d (by omega)
      simp only [List.length_append, List.length_cons, List.length_nil] at h1
      omega
    · have hstep : rrStep accept n st d = st := by
        unfold rrStep
        rw [if_neg hacc]
      rw [hstep]
      exact ih st hidx hlen

theorem rrRun_sum_len (accept : Nat → Nat → Bool) (n : Nat) (hn : 0 < n)
    (ds : List Nat) :
    ((rrRun accept n ds).lists.map List.length).sum
      = (rrRun accept n ds).accepted.length := by
  have h := rr_foldl_sum_len accept n hn ds ⟨List.replicate n [], 0, []⟩ hn (by simp)
  simpa [List.map_replicate] using h

theorem getD_replicate_nil (n j : Nat) :
    (List.replicate n ([] : List Nat)).getD j [] = [] := by
  by_cases h : j < n
  · rw [List.getD_eq_getElem _ _ (by simpa using h)]
    simp
  · rw [List.getD_eq_default _ _ (by simpa using Nat.le_of_not_lt h)]

theorem rrRun_replay (accept : Nat → Nat → Bool) (n : Nat) (hn : 0 < n)
    (ds : List Nat) :
    (rrRun accept n ds).accepted.Sublist ds ∧
    (rrRun accept n ds).lists.length = n ∧
    ∀ j, (rrRun accept n ds).lists.getD j []
          = assignedTo n j 0 (rrRun accept n ds).accepted := by
  obtain ⟨t, h1, h2, h3, h4, h5⟩ :=
    rr_foldl_replay accept n hn ds ⟨List.replicate n [], 0, []⟩ hn (by simp)
  have ht : (rrRun accept n ds).accepted = t := by simpa using h1
  refine ⟨ht ▸ h2, h4, fun j => ?_⟩
  rw [ht]
  have := h5 j
  rw [getD_replicate_nil] at this
  simpa using this

theorem rrRun_lists_eq (accept : Nat → Nat → Bool) (n : Nat) (hn : 0 < n)
    (ds : List Nat) :
    (rrRun accept n ds).lists
      = (List.range n).map (fun j => assignedTo n j 0 (rrRun accept n ds).accepted) := by
  obtain ⟨-, h4, h5⟩ := rrRun_replay accept n hn ds
  apply List.ext_getElem
  · rw [List.length_map, List.length_range]
    exact h4
  · intro j hj1 hj2
    rw [List.getElem_map, List.getElem_range, ← List.getD_eq_getElem _ [] hj1]
    exact h5 j

theorem getLast?_mem_list {α : Type} {l : List α} {a : α} (h : l.getLast? = some a) :
    a ∈ l := by
  induction l with
  | nil => simp at h
  | cons b tail ih =>
    cases tail with
    | nil =>
      simp only [List.getLast?_singleton, Option.some.injEq] at h
      simp [h]
    | cons c tl =>
      rw [List.getLast?_cons_cons] at h
      exact List.mem_cons_of_mem b (ih h)

theorem pairwise_head?_le (l : List Nat) (hp : List.Pairwise (· < ·) l) (a : Nat)
    (ha : l.head? = some a) : ∀ x ∈ l, a ≤ x := by
  obtain ⟨ys, rfl⟩ := List.head?_eq_some_iff.1 ha
  intro x hx
  rcases List.mem_cons.1 hx with rfl | hxt
  · exact Nat.le_refl x
  · exact Nat.le_of_lt ((List.pairwise_cons.1 hp).1 x hxt)

theorem pairwise_le_getLast? (l : List Nat) (hp : List.Pairwise (· < ·) l) (a : Nat)
    (ha : l.getLast? = some a) : ∀ x ∈ l, x ≤ a := by
  induction l with
  | nil => simp at ha
  | cons b tail ih =>
    intro x hx
    cases tail with
    | nil =>
      simp only [List.getLast?_singleton, Option.some.injEq] at ha
      rcases List.mem_cons.1 hx with rfl | hxt
      · omega
      · simp at hxt
    | cons c tl =>
      rw [List.getLast?_cons_cons] at ha
      have hamem : a ∈ c :: tl := getLast?_mem_list ha
      rcases List.mem_cons.1 hx with rfl | hxt
      · exact Nat.le_of_lt ((List.pairwise_cons.1 hp).1 a hamem)
      · exact ih (List.pairwise_cons.1 hp).2 ha x hxt

/-! ## Cost aggregation (transcribed from the block-building loop in main) -/

def kmRatePerKm : ℚ := 3 / 10

def verpflegungRate : ℚ := 14

/-- The per-customer accumulation term of the loop:
`float64(len(days)) * float64(customer.Distance) * kmRatePerKm`. -/
def perCustomerKmCost (c : Customer) (days : List String) : ℚ :=
  (days.length : ℚ) * (c.distance : ℚ) * kmRatePerKm

/-- Transcription of the cost accumulation of the block-building loop of
`main`: iterate over the enumerated customers, skip customers with no
assigned days (`continue`), and add the mileage term for the others. -/
def totalKmCost (customers : List Customer) (customerDays : List (List String)) : ℚ :=
  customers.enum.foldl
    (fun acc p =>
      if (customerDays.getD p.1 []).length = 0 then acc
      else acc + perCustomerKmCost p.2 (customerDays.getD p.1 []))
    0

/-- Transcription of `verpflegungRate * float64(totalWorkdays)` (the meal
allowance footer total). -/
def mealAllowanceTotal (totalWorkdays : Nat) : ℚ :=
  verpflegungRate * (totalWorkdays : ℚ)

/-- Placeholder customer used as the `List.getD` default in sum statements. -/
def defaultCustomer : Customer :=
  ⟨("" : String), ("" : String), ("" : String), ("" : String), ("" : String), 0, ("" : String)⟩

theorem totalKmCost_foldl_aux (cd : List (List String)) :
    ∀ (cs : List Customer) (k : Nat) (acc : ℚ),
      (cs.enumFrom k).foldl
          (fun a p =>
            if (cd.getD p.1 []).length = 0 then a
            else a + perCustomerKmCost p.2 (cd.getD p.1 []))
          acc
        = acc + ∑ i ∈ Finset.range cs.length,
            perCustomerKmCost (cs.getD i defaultCustomer) (cd.getD (k + i) []) := by
  intro cs
  induction cs with
  | nil =>
    intro k acc
    simp
  | cons c cs ih =>
    intro k acc
    rw [List.enumFrom_cons, List.foldl_cons]
    have hstep :
        (if (cd.getD k []).length = 0 then acc
         else acc + perCustomerKmCost c (cd.getD k []))
          = acc + perCustomerKmCost c (cd.getD k []) := by
      by_cases h : (cd.getD k []).length = 0
      · rw [if_pos h]
        unfold perCustomerKmCost
        rw [h]
        simp
      · rw [if_neg h]
    rw [hstep, ih (k + 1) (acc + perCustomerKmCost c (cd.getD k []))]
    rw [List.length_cons, Finset.sum_range_succ']
    have hcongr :
        ∑ i ∈ Finset.range cs.length,
            perCustomerKmCost ((c :: cs).getD (i + 1) defaultCustomer) (cd.getD (k + (i + 1)) [])
          = ∑ i ∈ Finset.range cs.length,
            perCustomerKmCost (cs.getD i defaultCustomer) (cd.getD (k + 1 + i) []) := by
      apply Finset.sum_congr rfl
      intro i _
      rw [List.getD_cons_succ, show k + (i + 1) = k + 1 + i from by omega]
    rw [hcongr]
    simp [List.getD_cons_zero]
    ring

/-- The accumulated mileage total is the sum over all customers of
`assignedDayCount * distance * rate`. -/
theorem totalKmCost_eq_sum (customers : List Customer) (cd : List (List String)) :
    totalKmCost customers cd
      = ∑ i ∈ Finset.range customers.length,
          perCustomerKmCost (customers.getD i defaultCustomer) (cd.getD i []) := by
  have h := totalKmCost_foldl_aux cd customers 0 0
  simpa [totalKmCost, List.enum] using h

/-! ## Document builders -/

def lineWidth : Nat := 75

/-- document.go's `lineSingle`: a rule of `lineWidth` dashes. -/
def lineSingle : String := String.mk (List.replicate lineWidth '-')

/-- document.go's `lineDouble`: a rule of `lineWidth` equals signs. -/
def lineDouble : String := String.mk (List.replicate lineWidth '=')

/-- Transcription of `buildDocumentHeader` from the first document-builder
generation (used by the transcribed `main`): right-aligned date and
reference number, then the document title; the random `shortID(6)` reference
number is passed in as `refID`. -/
def buildDocumentHeaderV1 (year month : Nat) (refID dateString title : String) : String :=
  "                                                               DATUM:   "
    ++ dateString ++ ("\n")
    ++ "                                                               BELEGNR: "
    ++ refID ++ ("\n\n")
    ++ "Reisekosten " ++ title ++ (" ") ++ pad2 month ++ ("/") ++ toString year ++ ("\n")
    ++ String.mk (List.replicate 43 '=') ++ ("\n\n")

/-- Transcription of `buildDocumentHeader` from `document.go`: centered
title block plus sevDesk-friendly metadata, including the settlement period
`periodStart - periodEnd`; the random `documentID(year, month)` is passed in
as `docID`. -/
def buildDocumentHeader2 (year month : Nat)
    (docID dateString periodStart periodEnd title : String) : String :=
  let header := title.toUpper ++ (" ") ++ pad2 month ++ ("/") ++ toString year
  let padding := (lineWidth - header.length) / 2
  lineDouble ++ ("\n")
    ++ String.mk (List.replicate padding ' ') ++ header ++ ("\n")
    ++ lineDouble ++ ("\n\n")
    ++ "Beleg-Nr.:            " ++ docID ++ ("\n")
    ++ "Datum:                " ++ dateString ++ ("\n")
    ++ "Rechnungsart:         Reisekosten - " ++ title ++ ("\n")
    ++ "Abrechnungszeitraum:  " ++ periodStart ++ (" - ") ++ periodEnd ++ ("\n\n")

/-! ## Full pipeline (assignment plus document-header construction) -/

/-- Output of one run relevant to the workday computation and the documents;
the two `Ref` inputs of `runPipeline` model the only randomness of a run,
the generated document reference numbers. -/
structure RunOutput where
  customerDays : List (List String)
  totalWorkdays : Nat
  lastDateString : String
  kmHeader : String
  verpHeader : String
  kmTotal : ℚ
  verpTotal : ℚ

/-- Transcription of the orchestration in `main`: build the per-customer
calendars, run the distribution loop, aggregate the costs, and build the two
document headers (whose random reference numbers enter as `kmRef` and
`verpRef`). -/
def runPipeline (L : HolidayLib) (customers : List Customer) (year month : Nat)
    (kmRef verpRef : String) : RunOutput :=
  { customerDays := (runMainLoop (getCustomerCalendars L customers) year month).customerDays
    totalWorkdays := (runMainLoop (getCustomerCalendars L customers) year month).totalWorkdays
    lastDateString := (runMainLoop (getCustomerCalendars L customers) year month).lastDateString
    kmHeader := buildDocumentHeaderV1 year month kmRef
      (runMainLoop (getCustomerCalendars L customers) year month).lastDateString
      ("Kilometergelderstattung")
    verpHeader := buildDocumentHeaderV1 year month verpRef
      (runMainLoop (getCustomerCalendars L customers) year month).lastDateString
      ("Verpflegungsmehraufwand")
    kmTotal := totalKmCost customers
      (runMainLoop (getCustomerCalendars L customers) year month).customerDays
    verpTotal := mealAllowanceTotal
      (runMainLoop (getCustomerCalendars L customers) year month).totalWorkdays }

/-- Modelled from the spec: §4.3 — the distributor also reports the first
assigned date (the orchestrating `main` of the latest version, which feeds
`periodStart`/`periodEnd` into `document.go`'s `buildDocumentHeader`, is not
under `src/`; only its callee and tests are). -/
def distributorFirstDate (calendars : List BusinessCalendar) (year month : Nat) :
    Option String :=
  ((rrRun (cursorAccepts calendars year month) calendars.length
      (List.range' 1 (daysInMonth year month))).accepted.head?).map (formatDate year month)

/-- Modelled from the spec: §4.3 — the distributor reports the last assigned
date. -/
def distributorLastDate (calendars : List BusinessCalendar) (year month : Nat) :
    Option String :=
  ((rrRun (cursorAccepts calendars year month) calendars.length
      (List.range' 1 (daysInMonth year month))).accepted.getLast?).map (formatDate year month)

/-- Modelled from the spec: the period header of the latest `main` — the
first and last assigned dates are used as the settlement period bounds of
`buildDocumentHeader` (document.go). -/
def periodHeader (calendars : List BusinessCalendar) (year month : Nat)
    (docID title : String) : String :=
  buildDocumentHeader2 year month docID
    (runMainLoop calendars year month).lastDateString
    ((distributorFirstDate calendars year month).getD (""))
    ((distributorLastDate calendars year month).getD (""))
    title

/-- Concrete holiday library used by witnesses: every province's holiday set
is empty. -/
def testLib : HolidayLib :=
  ⟨fun _ => false, fun _ => false, fun _ => false, fun _ => false,
   fun _ => false, fun _ => false, fun _ => false, fun _ => false,
   fun _ => false, fun _ => false, fun _ => false, fun _ => false,
   fun _ => false, fun _ => false, fun _ => false, fun _ => false⟩

/-! ## Claim theorems -/

/-- C1: for every target month, non-empty customer (calendar) list and
per-customer calendars, the workday distributor iterates the days
`1 .. daysInMonth` in ascending order with a rotating cursor starting at
customer 0; each day is tested only against the cursor customer's calendar;
on success the formatted day is appended to that customer's list and the
cursor advances by one modulo the number of customers, on failure the day is
skipped for everyone and the cursor stays.  Formally: the transcribed loop
equals the rotation `rrRun` (which is a direct rendering of that
description) on the ascending day range, component by component. -/
theorem claim_C1_distributor_rotation (calendars : List BusinessCalendar)
    (year month : Nat) (_hn : 0 < calendars.length) :
    (runMainLoop calendars year month).customerDays
        = (rrRun (cursorAccepts calendars year month) calendars.length
            (List.range' 1 (daysInMonth year month))).lists.map
            (List.map (formatDate year month))
      ∧ (runMainLoop calendars year month).customerIdx
        = (rrRun (cursorAccepts calendars year month) calendars.length
            (List.range' 1 (daysInMonth year month))).idx
      ∧ (runMainLoop calendars year month).totalWorkdays
        = (rrRun (cursorAccepts calendars year month) calendars.length
            (List.range' 1 (daysInMonth year month))).accepted.length
      ∧ (runMainLoop calendars year month).lastDateString
        = ((rrRun (cursorAccepts calendars year month) calendars.length
            (List.range' 1 (daysInMonth year month))).accepted.map
            (formatDate year month)).getLastD ("") :=
  runMainLoop_eq_rrRun calendars year month

/-- Witness for C1 at one calendar and February 2026. -/
theorem claim_C1_distributor_rotation_witness :
    (runMainLoop [defaultCalendar] 2026 2).customerDays
        = (rrRun (cursorAccepts [defaultCalendar] 2026 2) 1
            (List.range' 1 (daysInMonth 2026 2))).lists.map
            (List.map (formatDate 2026 2)) :=
  (claim_C1_distributor_rotation [defaultCalendar] 2026 2 (by decide)).1

/-- C2: with the policy flag set, `isBusinessDay` is false on December 24
and December 27–31 for every calendar; with the flag unset the filter is
exactly the calendar's own workday test (included unless weekend or official
holiday).  The flag-carrying filter is modelled from the spec (§4.2, and
`TestIsWorkday`); its `true` instance agrees with the `isWorkday` that is in
the sources. -/
theorem claim_C2_holiday_period_exclusion (c : BusinessCalendar) (d : Date) :
    (d.month = 12 → (d.day = 24 ∨ (27 ≤ d.day ∧ d.day ≤ 31)) →
        isBusinessDay c d true = false)
      ∧ isBusinessDay c d false = calIsWorkday c d
      ∧ isBusinessDay c d true = isWorkday c d := by
  refine ⟨?_, ?_, ?_⟩
  · intro hm hd
    have hcond : (true && d.month == 12 &&
        (d.day == 24 || (27 ≤ d.day && d.day ≤ 31))) = true := by
      rcases hd with h24 | h2731
      · simp [hm, h24]
      · simp [hm, h2731.1, h2731.2]
    unfold isBusinessDay
    rw [hcond]
    simp
  · unfold isBusinessDay
    cases h : calIsWorkday c d <;> simp [h]
  · unfold isBusinessDay isWorkday
    cases h : calIsWorkday c d <;> simp [h]

/-- Witness for C2 on December 24, 2025 (a Wednesday): excluded under the
policy, included without it. -/
theorem claim_C2_holiday_period_exclusion_witness :
    isBusinessDay defaultCalendar ⟨2025, 12, 24⟩ true = false
      ∧ isBusinessDay defaultCalendar ⟨2025, 12, 24⟩ false
        = calIsWorkday defaultCalendar ⟨2025, 12, 24⟩
      ∧ calIsWorkday defaultCalendar ⟨2025, 12, 24⟩ = true :=
  ⟨(claim_C2_holiday_period_exclusion defaultCalendar ⟨2025, 12, 24⟩).1 rfl (Or.inl rfl),
   (claim_C2_holiday_period_exclusion defaultCalendar ⟨2025, 12, 24⟩).2.1,
   by decide⟩

/-- C5: `daysInMonth` agrees with the Gregorian calendar for months 1–12,
with February yielding 29 exactly in leap years (divisible by 4, centuries
only when divisible by 400); in particular 29 days in February 2024 and 28
in February 2025. -/
theorem claim_C5_daysInMonth (year month : Nat) (h1 : 1 ≤ month) (h2 : month ≤ 12) :
    daysInMonth year month = gregorianDaysInMonth year month
      ∧ (daysInMonth year 2 = 29 ↔ gregorianLeap year)
      ∧ daysInMonth 2024 2 = 29 ∧ daysInMonth 2025 2 = 28 := by
  have hfeb : ∀ y : Nat, daysInMonth y 2 = if gregorianLeap y then 29 else 28 := by
    intro y
    by_cases hL : gregorianLeap y
    · have hb : isLeap y = true := (isLeap_iff y).2 hL
      simp [daysInMonth, hb, hL]
    · have hb : isLeap y = false :=
        Bool.eq_false_iff.mpr (fun ht => hL ((isLeap_iff y).1 ht))
      simp [daysInMonth, hb, hL]
      rfl
  refine ⟨?_, ?_, by decide, by decide⟩
  · interval_cases month
    · rfl
    · rw [hfeb year]
      unfold gregorianDaysInMonth
      by_cases hL : gregorianLeap year <;> simp [hL]
    · rfl
    · rfl
    · rfl
    · rfl
    · rfl
    · rfl
    · rfl
    · rfl
    · rfl
    · rfl
  · rw [hfeb year]
    by_cases hL : gregorianLeap year <;> simp [hL]

/-- Witness for C5 at February 2024. -/
theorem claim_C5_daysInMonth_witness :
    daysInMonth 2024 2 = gregorianDaysInMonth 2024 2
      ∧ (daysInMonth 2024 2 = 29 ↔ gregorianLeap 2024) :=
  ⟨(claim_C5_daysInMonth 2024 2 (by decide) (by decide)).1,
   (claim_C5_daysInMonth 2024 2 (by decide) (by decide)).2.1⟩

/-- C7: calendar construction is total over all region-code strings: the
province table has exactly 16 entries, a code that is not in the table
(including the empty string) silently yields the default Baden-Württemberg
calendar, and a code in the table yields that jurisdiction's calendar. -/
theorem claim_C7_region_fallback (L : HolidayLib) :
    (provinceHolidays L).length = 16
      ∧ ∀ province : String,
          ((provinceHolidays L).lookup province = none →
            newBusinessCalendar L province = ⟨L.holidaysBW⟩)
          ∧ ∀ hs, (provinceHolidays L).lookup province = some hs →
              newBusinessCalendar L province = ⟨hs⟩ := by
  refine ⟨rfl, fun province => ⟨fun hnone => ?_, fun hs hsome => ?_⟩⟩
  · unfold newBusinessCalendar
    rw [hnone]
  · unfold newBusinessCalendar
    rw [hsome]

/-- Witness for C7: an unknown code and the empty string fall back to the
default calendar, a known code selects its own table entry. -/
theorem claim_C7_region_fallback_witness :
    newBusinessCalendar testLib ("INVALID") = ⟨testLib.holidaysBW⟩
      ∧ newBusinessCalendar testLib ("") = ⟨testLib.holidaysBW⟩
      ∧ newBusinessCalendar testLib ("BY") = ⟨testLib.holidaysBY⟩ :=
  ⟨((claim_C7_region_fallback testLib).2 ("INVALID")).1 rfl,
   ((claim_C7_region_fallback testLib).2 ("")).1 rfl,
   ((claim_C7_region_fallback testLib).2 ("BY")).2 testLib.holidaysBY rfl⟩

/-- C9: the workday computation is deterministic — two runs over identical
distribution inputs (holiday data, customer order, target month) produce
identical per-customer assignments, totals and date strings, whatever the
randomly generated document reference numbers (the only random inputs of a
run, which enter only the headers) turn out to be. -/
theorem claim_C9_determinism (L : HolidayLib) (customers : List Customer)
    (year month : Nat) (r1 r2 r1' r2' : String) :
    (runPipeline L customers year month r1 r2).customerDays
        = (runPipeline L customers year month r1' r2').customerDays
      ∧ (runPipeline L customers year month r1 r2).totalWorkdays
        = (runPipeline L customers year month r1' r2').totalWorkdays
      ∧ (runPipeline L customers year month r1 r2).lastDateString
        = (runPipeline L customers year month r1' r2').lastDateString
      ∧ (runPipeline L customers year month r1 r2).kmTotal
        = (runPipeline L customers year month r1' r2').kmTotal
      ∧ (runPipeline L customers year month r1 r2).verpTotal
        = (runPipeline L customers year month r1' r2').verpTotal :=
  ⟨rfl, rfl, rfl, rfl, rfl⟩

/-- C10: the old `distributeWorkdays` is total for `numCustomers ≥ 1` (the
index `i % numCustomers` is always in range, and the result keeps one list
per customer), while `numCustomers = 0` with a non-empty workday list hits
the modulo-by-zero runtime panic, modelled as `none`. -/
theorem claim_C10_distribute_total (workdays : List String) (numCustomers : Nat) :
    (0 < numCustomers →
        ∃ r, distributeWorkdays workdays numCustomers = some r
          ∧ r.length = numCustomers)
      ∧ (numCustomers = 0 → workdays ≠ [] →
        distributeWorkdays workdays numCustomers = none) := by
  constructor
  · intro hn
    have haux : ∀ (w : List String) (i : Nat) (res : List (List String)),
        ∃ r, distributeWorkdaysAux numCustomers i w res = some r
          ∧ r.length = res.length := by
      intro w
      induction w with
      | nil =>
        intro i res
        exact ⟨res, rfl, rfl⟩
      | cons d rest ih =>
        intro i res
        obtain ⟨r, hr, hlen⟩ := ih (i + 1)
          (res.set (i % numCustomers) (res.getD (i % numCustomers) [] ++ [d]))
        refine ⟨r, ?_, by simpa using hlen⟩
        unfold distributeWorkdaysAux
        rw [if_neg (by omega)]
        exact hr
    obtain ⟨r, hr, hlen⟩ := haux workdays 0 (List.replicate numCustomers [])
    exact ⟨r, hr, by simpa using hlen⟩
  · intro hzero hne
    cases workdays with
    | nil => exact absurd rfl hne
    | cons d rest =>
      unfold distributeWorkdays distributeWorkdaysAux
      rw [if_pos hzero]

/-- C3: the per-customer lists of the distributor are exactly the rotation's
day lists rendered through `formatDate`; the sum of their lengths is the
`totalWorkdays` counter, which counts precisely the days accepted by the
then-current cursor customer's filter; no day appears in two lists or twice
in one list, and every list is strictly ascending chronologically. -/
theorem claim_C3_assignment_invariants (calendars : List BusinessCalendar)
    (year month : Nat) (hn : 0 < calendars.length) :
    ((runMainLoop calendars year month).customerDays.map List.length).sum
        = (runMainLoop calendars year month).totalWorkdays
      ∧ (runMainLoop calendars year month).totalWorkdays
        = (rrRun (cursorAccepts calendars year month) calendars.length
            (List.range' 1 (daysInMonth year month))).accepted.length
      ∧ (runMainLoop calendars year month).customerDays
        = (rrRun (cursorAccepts calendars year month) calendars.length
            (List.range' 1 (daysInMonth year month))).lists.map
            (List.map (formatDate year month))
      ∧ (rrRun (cursorAccepts calendars year month) calendars.length
            (List.range' 1 (daysInMonth year month))).lists.flatten.Nodup
      ∧ ∀ l ∈ (rrRun (cursorAccepts calendars year month) calendars.length
            (List.range' 1 (daysInMonth year month))).lists,
          List.Pairwise (· < ·) l := by
  obtain ⟨hmap, -, htot, -⟩ := runMainLoop_eq_rrRun calendars year month
  obtain ⟨hsub, hlen, hgetD⟩ :=
    rrRun_replay (cursorAccepts calendars year month) calendars.length hn
      (List.range' 1 (daysInMonth year month))
  have hnodupt : (rrRun (cursorAccepts calendars year month) calendars.length
      (List.range' 1 (daysInMonth year month))).accepted.Nodup :=
    hsub.nodup (List.nodup_range' _ _)
  have hsorted : List.Pairwise (· < ·)
      (rrRun (cursorAccepts calendars year month) calendars.length
        (List.range' 1 (daysInMonth year month))).accepted :=
    List.Pairwise.sublist hsub (List.pairwise_lt_range' _ _)
  have hlists := rrRun_lists_eq (cursorAccepts calendars year month)
    calendars.length hn (List.range' 1 (daysInMonth year month))
  refine ⟨?_, htot, hmap, ?_, ?_⟩
  · rw [hmap, htot, List.map_map]
    have hcomp : (List.length ∘ List.map (formatDate year month))
        = fun l : List Nat => l.length := by
      funext l
      simp
    rw [hcomp]
    exact rrRun_sum_len (cursorAccepts calendars year month) calendars.length hn
      (List.range' 1 (daysInMonth year month))
  · rw [List.nodup_flatten]
    constructor
    · intro l hl
      rw [hlists] at hl
      obtain ⟨j, -, rfl⟩ := List.mem_map.1 hl
      exact (assignedTo_sublist _ _ _ _).nodup hnodupt
    · rw [hlists]
      rw [List.pairwise_map]
      apply List.Pairwise.imp ?_ (List.pairwise_lt_range calendars.length)
      intro j k hjk
      intro a haj hak
      exact assignedTo_disjoint calendars.length (Nat.ne_of_lt hjk) _ 0 hnodupt a haj hak
  · intro l hl
    rw [hlists] at hl
    obtain ⟨j, -, rfl⟩ := List.mem_map.1 hl
    exact List.Pairwise.sublist (assignedTo_sublist _ _ _ _) hsorted

/-- Witness for C3 at one calendar and February 2026. -/
theorem claim_C3_assignment_invariants_witness :
    ((runMainLoop [defaultCalendar] 2026 2).customerDays.map List.length).sum
      = (runMainLoop [defaultCalendar] 2026 2).totalWorkdays :=
  (claim_C3_assignment_invariants [defaultCalendar] 2026 2 (by decide)).1

/-- Acceptance functions that agree below the cursor bound produce the same
rotation. -/
theorem rr_foldl_congr (accept accept2 : Nat → Nat → Bool) (n : Nat) (hn : 0 < n)
    (hagree : ∀ i, i < n → ∀ day, accept i day = accept2 i day) :
    ∀ (ds : List Nat) (st : RRState), st.idx < n →
      ds.foldl (rrStep accept n) st = ds.foldl (rrStep accept2 n) st := by
  intro ds
  induction ds with
  | nil =>
    intro st _
    rfl
  | cons d rest ih =>
    intro st hidx
    rw [List.foldl_cons, List.foldl_cons]
    have hcond : accept st.idx d = accept2 st.idx d := hagree st.idx hidx d
    by_cases hacc : accept st.idx d = true
    · have hstep : rrStep accept n st d = rrStep accept2 n st d := by
        unfold rrStep
        rw [if_pos hacc, if_pos (hcond ▸ hacc)]
      rw [hstep]
      apply ih
      have : rrStep accept2 n st d
          = ⟨st.lists.set st.idx (st.lists.getD st.idx [] ++ [d]),
             (st.idx + 1) % n, st.accepted ++ [d]⟩ := by
        unfold rrStep
        rw [if_pos (hcond ▸ hacc)]
      rw [this]
      exact Nat.mod_lt _ hn
    · have hstep : rrStep accept n st d = rrStep accept2 n st d := by
        unfold rrStep
        rw [if_neg hacc, if_neg (hcond ▸ hacc)]
      rw [hstep]
      have hst : rrStep accept2 n st d = st := by
        unfold rrStep
        rw [if_neg (hcond ▸ hacc)]
      rw [hst]
      exact ih st hidx

/-- C4: when all customers' calendars accept exactly the same days (a common
predicate `p`, `D` qualifying days in the month, `N` customers), customer
`j` receives `D / N` days plus one extra exactly when `j < D % N`: each
customer gets `⌊D/N⌋` or `⌈D/N⌉` days and the extras go to the first
`D % N` customers in enumeration order. -/
theorem claim_C4_round_robin_fairness (calendars : List BusinessCalendar)
    (year month : Nat) (p : Nat → Bool) (hn : 0 < calendars.length)
    (hagree : ∀ i, i < calendars.length → ∀ day,
        cursorAccepts calendars year month i day = p day)
    (j : Nat) (hj : j < calendars.length) :
    ((runMainLoop calendars year month).customerDays.getD j []).length
        = ((List.range' 1 (daysInMonth year month)).filter p).length / calendars.length
          + (if j < ((List.range' 1 (daysInMonth year month)).filter p).length
                % calendars.length then 1 else 0)
      ∧ (((runMainLoop calendars year month).customerDays.getD j []).length
            = ((List.range' 1 (daysInMonth year month)).filter p).length / calendars.length
          ∨ ((runMainLoop calendars year month).customerDays.getD j []).length
            = ((List.range' 1 (daysInMonth year month)).filter p).length / calendars.length
              + 1) := by
  obtain ⟨hmap, -, -, -⟩ := runMainLoop_eq_rrRun calendars year month
  have hcongr := rr_foldl_congr (cursorAccepts calendars year month)
    (fun _ day => p day) calendars.length hn hagree
    (List.range' 1 (daysInMonth year month)) ⟨List.replicate calendars.length [], 0, []⟩ hn
  have hacc : (rrRun (cursorAccepts calendars year month) calendars.length
      (List.range' 1 (daysInMonth year month))).accepted
        = (List.range' 1 (daysInMonth year month)).filter p := by
    have h2 := rr_foldl_accepted_uniform p calendars.length hn
      (List.range' 1 (daysInMonth year month)) ⟨List.replicate calendars.length [], 0, []⟩ hn
    unfold rrRun
    rw [hcongr]
    simpa using h2
  obtain ⟨-, -, hgetD⟩ :=
    rrRun_replay (cursorAccepts calendars year month) calendars.length hn
      (List.range' 1 (daysInMonth year month))
  have hlen : ((runMainLoop calendars year month).customerDays.getD j []).length
      = (assignedTo calendars.length j 0
          ((List.range' 1 (daysInMonth year month)).filter p)).length := by
    rw [hmap, getD_map_nil, List.length_map, hgetD j, hacc]
  have hcount := assignedTo_zero_length calendars.length hn j hj
    ((List.range' 1 (daysInMonth year month)).filter p)
  constructor
  · rw [hlen, hcount]
  · rw [hlen, hcount]
    by_cases hcase : j < ((List.range' 1 (daysInMonth year month)).filter p).length
        % calendars.length
    · right
      rw [if_pos hcase]
    · left
      rw [if_neg hcase, Nat.add_zero]

/-- Witness for C4: two customers with identical (empty-holiday) calendars
in February 2026. -/
theorem claim_C4_round_robin_fairness_witness :
    ((runMainLoop [defaultCalendar, defaultCalendar] 2026 2).customerDays.getD 0 []).length
        = ((List.range' 1 (daysInMonth 2026 2)).filter
            (fun day => isWorkday defaultCalendar ⟨2026, 2, day⟩)).length / 2
          + (if 0 < ((List.range' 1 (daysInMonth 2026 2)).filter
              (fun day => isWorkday defaultCalendar ⟨2026, 2, day⟩)).length % 2
             then 1 else 0) :=
  (claim_C4_round_robin_fairness [defaultCalendar, defaultCalendar] 2026 2
    (fun day => isWorkday defaultCalendar ⟨2026, 2, day⟩) (by decide)
    (by
      intro i hi day
      have h2 : i < 2 := by simpa using hi
      interval_cases i <;> rfl)
    0 (by decide)).1

/-- C6: the aggregated mileage total is the sum over customers of
`assignedDayCount * distance * 0.30`, the meal allowance total is
`14.00 * totalQualifyingDays`, and in the concrete scenario of two customers
with distances 42 and 120 km and a 10/10 split of 20 qualifying days the
totals are 126.00, 360.00, 486.00 and 280.00 (amounts as exact rationals,
per the spec's numeric semantics). -/
theorem claim_C6_cost_aggregation :
    (∀ (customers : List Customer) (cd : List (List String)),
        totalKmCost customers cd
          = ∑ i ∈ Finset.range customers.length,
              ((cd.getD i []).length : ℚ)
                * ((customers.getD i defaultCustomer).distance : ℚ) * kmRatePerKm)
      ∧ (∀ t : Nat, mealAllowanceTotal t = 14 * (t : ℚ))
      ∧ ∀ (c1 c2 : Customer) (d1 d2 : List String),
          c1.distance = 42 → c2.distance = 120 →
          d1.length = 10 → d2.length = 10 →
          perCustomerKmCost c1 d1 = 126 ∧ perCustomerKmCost c2 d2 = 360
            ∧ totalKmCost [c1, c2] [d1, d2] = 486
            ∧ mealAllowanceTotal 20 = 280 := by
  refine ⟨?_, ?_, ?_⟩
  · intro customers cd
    rw [totalKmCost_eq_sum]
    apply Finset.sum_congr rfl
    intro i _
    rfl
  · intro t
    unfold mealAllowanceTotal verpflegungRate
    ring
  · intro c1 c2 d1 d2 hc1 hc2 hd1 hd2
    have h1 : perCustomerKmCost c1 d1 = 126 := by
      unfold perCustomerKmCost kmRatePerKm
      rw [hc1, hd1]
      norm_num
    have h2 : perCustomerKmCost c2 d2 = 360 := by
      unfold perCustomerKmCost kmRatePerKm
      rw [hc2, hd2]
      norm_num
    refine ⟨h1, h2, ?_, ?_⟩
    · rw [totalKmCost_eq_sum]
      rw [show ([c1, c2] : List Customer).length = 2 from rfl]
      rw [Finset.sum_range_succ, Finset.sum_range_succ, Finset.sum_range_zero]
      have e1 : (([d1, d2] : List (List String)).getD 0 []) = d1 := rfl
      have e2 : (([d1, d2] : List (List String)).getD 1 []) = d2 := rfl
      rw [e1, e2]
      rw [show (([c1, c2] : List Customer).getD 0 defaultCustomer) = c1 from rfl,
        show (([c1, c2] : List Customer).getD 1 defaultCustomer) = c2 from rfl]
      rw [h1, h2]
      norm_num
    · unfold mealAllowanceTotal verpflegungRate
      norm_num

/-- Witness for C6 with explicit customers (42 km and 120 km) and two
ten-day assignments. -/
theorem claim_C6_cost_aggregation_witness :
    perCustomerKmCost ⟨("1"), ("A"), ("x"), ("y"), ("r"), 42, ("BW")⟩
        (List.replicate 10 ("")) = 126
      ∧ perCustomerKmCost ⟨("2"), ("B"), ("x"), ("y"), ("r"), 120, ("BY")⟩
        (List.replicate 10 ("")) = 360
      ∧ totalKmCost
          [⟨("1"), ("A"), ("x"), ("y"), ("r"), 42, ("BW")⟩,
           ⟨("2"), ("B"), ("x"), ("y"), ("r"), 120, ("BY")⟩]
          [List.replicate 10 (""), List.replicate 10 ("")] = 486
      ∧ mealAllowanceTotal 20 = 280 :=
  claim_C6_cost_aggregation.2.2
    ⟨("1"), ("A"), ("x"), ("y"), ("r"), 42, ("BW")⟩
    ⟨("2"), ("B"), ("x"), ("y"), ("r"), 120, ("BY")⟩
    (List.replicate 10 ("")) (List.replicate 10 (""))
    rfl rfl (by simp) (by simp)

/-- C8: whenever at least one day qualifies, the distributor yields both a
first and a last assigned date; the first is the chronologically least
assigned day and the last the greatest over all per-customer lists, and the
document period header is built with exactly these two dates as the
settlement period bounds (the orchestrator holding them is modelled from the
spec, its callee `buildDocumentHeader` is transcribed from document.go). -/
theorem claim_C8_first_last_period (calendars : List BusinessCalendar)
    (year month : Nat) (hn : 0 < calendars.length)
    (hw : 1 ≤ (runMainLoop calendars year month).totalWorkdays) :
    ∃ df dl : Nat,
      distributorFirstDate calendars year month = some (formatDate year month df)
      ∧ distributorLastDate calendars year month = some (formatDate year month dl)
      ∧ df ≤ dl
      ∧ (∀ j d, d ∈ (rrRun (cursorAccepts calendars year month) calendars.length
            (List.range' 1 (daysInMonth year month))).lists.getD j [] →
          df ≤ d ∧ d ≤ dl)
      ∧ ∀ docID title, periodHeader calendars year month docID title
          = buildDocumentHeader2 year month docID
              (runMainLoop calendars year month).lastDateString
              (formatDate year month df) (formatDate year month dl) title := by
  obtain ⟨-, -, htot, -⟩ := runMainLoop_eq_rrRun calendars year month
  obtain ⟨hsub, -, hgetD⟩ :=
    rrRun_replay (cursorAccepts calendars year month) calendars.length hn
      (List.range' 1 (daysInMonth year month))
  have hsorted : List.Pairwise (· < ·)
      (rrRun (cursorAccepts calendars year month) calendars.length
        (List.range' 1 (daysInMonth year month))).accepted :=
    List.Pairwise.sublist hsub (List.pairwise_lt_range' _ _)
  cases hacc : (rrRun (cursorAccepts calendars year month) calendars.length
      (List.range' 1 (daysInMonth year month))).accepted with
  | nil =>
    rw [htot, hacc] at hw
    simp at hw
  | cons x xs =>
    have hhead : (rrRun (cursorAccepts calendars year month) calendars.length
        (List.range' 1 (daysInMonth year month))).accepted.head? = some x := by
      rw [hacc]
      rfl
    have hlast0 : (x :: xs).getLast? = some ((x :: xs).getLast (List.cons_ne_nil x xs)) :=
      List.getLast?_eq_getLast_of_ne_nil _
    have hlast : (rrRun (cursorAccepts calendars year month) calendars.length
        (List.range' 1 (daysInMonth year month))).accepted.getLast?
          = some ((x :: xs).getLast (List.cons_ne_nil x xs)) := by
      rw [hacc]
      exact hlast0
    set dl := (x :: xs).getLast (List.cons_ne_nil x xs) with hdl
    have hsorted2 : List.Pairwise (· < ·) (x :: xs) := hacc ▸ hsorted
    have hdlmem : dl ∈ x :: xs := getLast?_mem_list hlast0
    refine ⟨x, dl, ?_, ?_, ?_, ?_, ?_⟩
    · unfold distributorFirstDate
      rw [hhead]
      rfl
    · unfold distributorLastDate
      rw [hlast]
      rfl
    · exact pairwise_head?_le (x :: xs) hsorted2 x rfl dl hdlmem
    · intro j d hd
      rw [hgetD j, hacc] at hd
      have hmem : d ∈ x :: xs := (assignedTo_sublist _ _ _ _).subset hd
      exact ⟨pairwise_head?_le (x :: xs) hsorted2 x rfl d hmem,
        pairwise_le_getLast? (x :: xs) hsorted2 dl hlast0 d hmem⟩
    · intro docID title
      unfold periodHeader distributorFirstDate distributorLastDate
      rw [hhead, hlast]
      rfl

set_option maxRecDepth 8000 in
/-- Witness for C8 at one calendar and February 2026. -/
theorem claim_C8_first_last_period_witness :
    ∃ df dl : Nat,
      distributorFirstDate [defaultCalendar] 2026 2 = some (formatDate 2026 2 df)
      ∧ distributorLastDate [defaultCalendar] 2026 2 = some (formatDate 2026 2 dl)
      ∧ df ≤ dl
      ∧ (∀ j d, d ∈ (rrRun (cursorAccepts [defaultCalendar] 2026 2) 1
            (List.range' 1 (daysInMonth 2026 2))).lists.getD j [] →
          df ≤ d ∧ d ≤ dl)
      ∧ ∀ docID title, periodHeader [defaultCalendar] 2026 2 docID title
          = buildDocumentHeader2 2026 2 docID
              (runMainLoop [defaultCalendar] 2026 2).lastDateString
              (formatDate 2026 2 df) (formatDate 2026 2 dl) title :=
  claim_C8_first_last_period [defaultCalendar] 2026 2 (by decide) (by decide)

/-- Witness for C10: three workdays over two customers succeed with two
lists; one workday over zero customers panics. -/
theorem claim_C10_distribute_total_witness :
    (∃ r, distributeWorkdays [("a"), ("b"), ("c")] 2 = some r ∧ r.length = 2)
      ∧ distributeWorkdays [("a")] 0 = none :=
  ⟨(claim_C10_distribute_total [("a"), ("b"), ("c")] 2).1 (by decide),
   (claim_C10_distribute_total [("a")] 0).2 rfl (List.cons_ne_nil _ _)⟩

end Reisekosten
